import Mathlib

/-!
Verification of the zustand-persist-plus storage layers, migration engine,
encryption envelope and conflict resolver.

The TypeScript sources are shallowly embedded:
- JSON values become the inductive type `ZPP.Json`; objects are association
  lists in insertion order, mirroring JS object key order.  JSON numbers are
  modelled as integers (every number appearing in the verified claims is an
  integer; float syntax is rejected by the modelled parser).
- `JSON.stringify` / `JSON.parse` become `stringify` / `parseJson`, a real
  serializer and recursive-descent parser.
- CryptoJS (PBKDF2, AES with the CBC fallback, Base64) and LZString are
  external npm dependencies, not repository code; they are abstracted as
  primitive function bundles (`CryptoPrimitives`, `CompressionPrimitives`).
  Theorems that need them either quantify over the primitives or assume the
  library round-trip property the sources rely on.
- Exceptions become `Except String`; `try`/`catch` becomes matching on it.
-/

namespace ZPP

/-- JSON values as produced by JSON.parse.  Objects are association lists in
insertion order (JS objects preserve insertion order, with an existing key
keeping its original position on re-assignment). -/
inductive Json where
  | null : Json
  | bool (b : Bool) : Json
  | num (n : Int) : Json
  | str (s : String) : Json
  | arr (elems : List Json) : Json
  | obj (fields : List (String × Json)) : Json

/-- Lowercase hex digit, as emitted by JSON.stringify in \u escapes. -/
def hexDigitChar (n : Nat) : Char :=
  if n < 10 then Char.ofNat (48 + n) else Char.ofNat (87 + n)

/-- Escaping of a single character inside a JSON string literal, exactly as
JSON.stringify: quote, backslash, the five named control escapes, \u00XX for
the remaining control characters, everything else verbatim. -/
def escapeChar (c : Char) : List Char :=
  if c = Char.ofNat 34 then [Char.ofNat 92, Char.ofNat 34]
  else if c = Char.ofNat 92 then [Char.ofNat 92, Char.ofNat 92]
  else if c = Char.ofNat 8 then [Char.ofNat 92, 'b']
  else if c = Char.ofNat 9 then [Char.ofNat 92, 't']
  else if c = Char.ofNat 10 then [Char.ofNat 92, 'n']
  else if c = Char.ofNat 12 then [Char.ofNat 92, 'f']
  else if c = Char.ofNat 13 then [Char.ofNat 92, 'r']
  else if c.toNat < 32 then
    [Char.ofNat 92, 'u', '0', '0', hexDigitChar (c.toNat / 16), hexDigitChar (c.toNat % 16)]
  else [c]

def escapeList (cs : List Char) : List Char :=
  cs.foldr (fun c acc => escapeChar c ++ acc) []

/-- A JSON string literal: quote, escaped body, quote. -/
def quoteString (s : String) : String :=
  String.mk (Char.ofNat 34 :: (escapeList s.data ++ [Char.ofNat 34]))

mutual

/-- JSON.stringify (no indentation, no replacer), restricted to the modelled
value space. -/
def stringify : Json → String
  | .null => "null"
  | .bool true => "true"
  | .bool false => "false"
  | .num n => toString n
  | .str s => quoteString s
  | .arr xs => "[" ++ stringifyElems xs ++ "]"
  | .obj fs => "\x7b" ++ stringifyFields fs ++ "\x7d"

def stringifyElems : List Json → String
  | [] => ""
  | [x] => stringify x
  | x :: y :: rest => stringify x ++ "," ++ stringifyElems (y :: rest)

def stringifyFields : List (String × Json) → String
  | [] => ""
  | [(k, v)] => quoteString k ++ ":" ++ stringify v
  | (k, v) :: e :: rest => quoteString k ++ ":" ++ stringify v ++ "," ++ stringifyFields (e :: rest)

end

/-- Skip JSON whitespace (space, tab, newline, carriage return). -/
def skipWs : List Char → List Char
  | [] => []
  | c :: rest =>
    if c = ' ' ∨ c = Char.ofNat 9 ∨ c = Char.ofNat 10 ∨ c = Char.ofNat 13 then skipWs rest
    else c :: rest

def hexVal (c : Char) : Option Nat :=
  if 48 ≤ c.toNat ∧ c.toNat ≤ 57 then some (c.toNat - 48)
  else if 97 ≤ c.toNat ∧ c.toNat ≤ 102 then some (c.toNat - 87)
  else if 65 ≤ c.toNat ∧ c.toNat ≤ 70 then some (c.toNat - 55)
  else none

def hex4 (a b c d : Char) : Option Nat :=
  match hexVal a, hexVal b, hexVal c, hexVal d with
  | some x, some y, some z, some w => some (((x * 16 + y) * 16 + z) * 16 + w)
  | _, _, _, _ => none

def consChar (c : Char) : Option (List Char × List Char) → Option (List Char × List Char)
  | some (cs, rest) => some (c :: cs, rest)
  | none => none

/-- Body of a JSON string literal, after the opening quote: characters up to
the closing quote, processing escapes.  Raw control characters are rejected
(as JSON.parse does).  Surrogate \u escapes are rejected (Lean characters are
scalar values; no claim exercises them). -/
def parseStringBody : List Char → Option (List Char × List Char)
  | [] => none
  | c :: rest =>
    if c = Char.ofNat 34 then some ([], rest)
    else if c = Char.ofNat 92 then
      match rest with
      | [] => none
      | e :: rest2 =>
        if e = Char.ofNat 34 then consChar (Char.ofNat 34) (parseStringBody rest2)
        else if e = Char.ofNat 92 then consChar (Char.ofNat 92) (parseStringBody rest2)
        else if e = '/' then consChar '/' (parseStringBody rest2)
        else if e = 'b' then consChar (Char.ofNat 8) (parseStringBody rest2)
        else if e = 'f' then consChar (Char.ofNat 12) (parseStringBody rest2)
        else if e = 'n' then consChar (Char.ofNat 10) (parseStringBody rest2)
        else if e = 'r' then consChar (Char.ofNat 13) (parseStringBody rest2)
        else if e = 't' then consChar (Char.ofNat 9) (parseStringBody rest2)
        else if e = 'u' then
          match rest2 with
          | a :: b :: c2 :: d :: rest3 =>
            match hex4 a b c2 d with
            | some n => if n < 55296 then consChar (Char.ofNat n) (parseStringBody rest3) else none
            | none => none
          | _ => none
        else none
    else if 32 ≤ c.toNat then consChar c (parseStringBody rest)
    else none

/-- Maximal run of decimal digits. -/
def takeDigits : List Char → List Char × List Char
  | [] => ([], [])
  | c :: rest =>
    if c.isDigit then
      let p := takeDigits rest
      (c :: p.1, p.2)
    else ([], c :: rest)

def natFromDigits (ds : List Char) : Nat :=
  ds.foldl (fun a c => a * 10 + (c.toNat - 48)) 0

/-- After a digit run, a '.', 'e' or 'E' would start a float, which the model
does not cover (all numbers in the verified claims are integers). -/
def startsFloat : List Char → Bool
  | c :: _ => c = '.' ∨ c = 'e' ∨ c = 'E'
  | [] => false

/-- JS object assignment obj[k] = v: an existing key keeps its position and
takes the new value, a new key is appended. -/
def insertLast : List (String × Json) → String → Json → List (String × Json)
  | [], k, v => [(k, v)]
  | (k1, v1) :: rest, k, v =>
    if k1 = k then (k, v) :: rest else (k1, v1) :: insertLast rest k v

def dedupJS (fs : List (String × Json)) : List (String × Json) :=
  fs.foldl (fun acc e => insertLast acc e.1 e.2) []

mutual

/-- JSON.parse, value production.  Fuel bounds the nesting depth; parseJson
supplies one unit per input character, which always suffices since every
recursion consumes input. -/
def parseVal : Nat → List Char → Option (Json × List Char)
  | 0, _ => none
  | Nat.succ fuel, input =>
    match skipWs input with
    | 'n' :: 'u' :: 'l' :: 'l' :: rest => some (.null, rest)
    | 't' :: 'r' :: 'u' :: 'e' :: rest => some (.bool true, rest)
    | 'f' :: 'a' :: 'l' :: 's' :: 'e' :: rest => some (.bool false, rest)
    | '\x22' :: rest =>
      match parseStringBody rest with
      | some (cs, rest2) => some (.str (String.mk cs), rest2)
      | none => none
    | '\x7b' :: rest =>
      match skipWs rest with
      | '\x7d' :: rest2 => some (.obj [], rest2)
      | rest2 =>
        match parseMembers fuel rest2 with
        | some (fs, rest3) => some (.obj (dedupJS fs), rest3)
        | none => none
    | '[' :: rest =>
      match skipWs rest with
      | ']' :: rest2 => some (.arr [], rest2)
      | rest2 =>
        match parseElems fuel rest2 with
        | some (xs, rest3) => some (.arr xs, rest3)
        | none => none
    | '-' :: rest =>
      match takeDigits rest with
      | ([], _) => none
      | (ds, rest2) => if startsFloat rest2 then none else some (.num (-(natFromDigits ds : Int)), rest2)
    | c :: rest =>
      if c.isDigit then
        match takeDigits (c :: rest) with
        | (ds, rest2) => if startsFloat rest2 then none else some (.num (natFromDigits ds : Int), rest2)
      else none
    | [] => none

/-- One or more "key": value members followed by a closing brace. -/
def parseMembers : Nat → List Char → Option (List (String × Json) × List Char)
  | 0, _ => none
  | Nat.succ fuel, input =>
    match skipWs input with
    | '\x22' :: rest =>
      match parseStringBody rest with
      | some (kcs, rest1) =>
        match skipWs rest1 with
        | ':' :: rest2 =>
          match parseVal fuel rest2 with
          | some (v, rest3) =>
            match skipWs rest3 with
            | ',' :: rest4 =>
              match parseMembers fuel rest4 with
              | some (fs, rest5) => some ((String.mk kcs, v) :: fs, rest5)
              | none => none
            | '\x7d' :: rest4 => some ([(String.mk kcs, v)], rest4)
            | _ => none
          | none => none
        | _ => none
      | none => none
    | _ => none

/-- One or more array elements followed by a closing bracket. -/
def parseElems : Nat → List Char → Option (List Json × List Char)
  | 0, _ => none
  | Nat.succ fuel, input =>
    match parseVal fuel input with
    | some (v, rest) =>
      match skipWs rest with
      | ',' :: rest2 =>
        match parseElems fuel rest2 with
        | some (xs, rest3) => some (v :: xs, rest3)
        | none => none
      | ']' :: rest2 => some ([v], rest2)
      | _ => none
    | none => none

end

/-- JSON.parse: none models a thrown SyntaxError.  The fuel only has to
exceed the nesting depth of the input; one unit per input character plus a
constant slack is always sufficient (JSON.parse itself has no fuel). -/
def parseJson (s : String) : Option Json :=
  match parseVal (s.length + 6) s.data with
  | some (j, rest) => if skipWs rest = [] then some j else none
  | none => none

/-- Property read on a JS object: first binding of the key (object field
lists are duplicate-free after parsing, and JS objects cannot hold duplicate
keys). -/
def getField (j : Json) (k : String) : Option Json :=
  match j with
  | .obj fs => fs.lookup k
  | _ => none

def eraseKey (fs : List (String × Json)) (k : String) : List (String × Json) :=
  fs.filter (fun e => e.1 ≠ k)

/-! ## Migration engine (src/middleware/persist-plus.ts, createMigratingStorage) -/

/-- MigrationOptions: the configured target schema version and the
version-indexed migration table (Record of number to function, absent entries
modelled as none). -/
structure MigrationOptions where
  version : Int
  migrations : Int → Option (Json → Json)

/-- The read from parsed._version followed by `|| 0`: a numeric field is
taken as is (0 stays 0 under JS truthiness), an absent field gives 0.
Non-numeric version fields (which JS would coerce) are outside the model;
every claim uses numeric-or-absent versions. -/
def storedVersionOf (j : Json) : Int :=
  match getField j "_version" with
  | some (.num n) => n
  | _ => 0

/-- The for-loop of createMigratingStorage.getItem: starting at version v,
run count steps, at each step applying migrations[v] when present and then
incrementing v. -/
def applyMigrationsFrom (migs : Int → Option (Json → Json)) : Nat → Int → Json → Json
  | 0, _, st => st
  | Nat.succ n, v, st =>
    let st' := match migs v with
      | some f => f st
      | none => st
    applyMigrationsFrom migs n (v + 1) st'

/-- The statement parsed._version = version on the migrated value.  On an
object it sets/overwrites the field; on an array the added non-index property
is dropped again by JSON.stringify; on a primitive the strict-mode assignment
throws (handled by the caller's catch). -/
inductive StampResult where
  | stamped (j : Json) : StampResult
  | threw : StampResult

def stampVersion (version : Int) : Json → StampResult
  | .obj fs => .stamped (.obj (insertLast fs "_version" (.num version)))
  | .arr xs => .stamped (.arr xs)
  | _ => .threw

/-- createMigratingStorage.getItem, as a pure transform of the inner read
result (the inner storage is synchronous; the Promise branch of the source is
vacuous for it). -/
def migGetValue (mo : MigrationOptions) (stored : Option String) : Option String :=
  match stored with
  | none => none
  | some s =>
    match parseJson s with
    | none => some s
    | some parsed =>
      let storedVersion := storedVersionOf parsed
      if storedVersion < mo.version then
        let migrated := applyMigrationsFrom mo.migrations
          (mo.version - storedVersion).toNat (storedVersion + 1) parsed
        match stampVersion mo.version migrated with
        | .stamped j => some (stringify j)
        | .threw => some s
      else some s

/-- createMigratingStorage.setItem: the value actually forwarded to the inner
storage.  Parse failure or the strict-mode throw on stamping a primitive fall
back to writing the raw value. -/
def migSetValue (mo : MigrationOptions) (value : String) : String :=
  match parseJson value with
  | none => value
  | some parsed =>
    match stampVersion mo.version parsed with
    | .stamped j => stringify j
    | .threw => value

/-! ## Encryption (src/encryption/aes-gcm.ts) -/

/-- The CryptoJS primitives used by encrypt/decrypt.  CryptoJS is an external
dependency; the PBKDF2 derivation, the AES encrypt/decrypt pair (with the
Base64 ciphertext serialization folded in) and the random salt/IV draws are
abstracted as an arbitrary bundle.  aesDecrypt returns the UTF-8 decode of
the decryption, which for a wrong key can be the empty string (the condition
the source explicitly checks for). -/
structure CryptoPrimitives where
  pbkdf2 : String → String → Int → Int → String
  aesEncrypt : String → String → String → String
  aesDecrypt : String → String → String → String
  randomSalt : String
  randomIV : String

/-- EncryptionOptions as passed to encrypt (the secret member is ignored by
encrypt, which re-merges the supplied secret).  Absent optional members are
none; salt and iv default to the empty string as in DEFAULT_OPTIONS. -/
structure EncryptionOptions where
  algorithm : String := "AES-GCM"
  secret : String := ""
  iterations : Option Int := none
  keyLength : Option Int := none
  salt : String := ""
  iv : String := ""

/-- encrypt(data, secret, options): empty secret throws; otherwise derive the
key via PBKDF2 from the (provided or random) salt, encrypt with the (provided
or random) IV, and stringify the envelope with keys in source order. -/
def encrypt (cp : CryptoPrimitives) (data secret : String)
    (options : EncryptionOptions) : Except String String :=
  if secret = "" then .error "Encryption secret is required"
  else
    let salt := if options.salt = "" then cp.randomSalt else options.salt
    let iv := if options.iv = "" then cp.randomIV else options.iv
    let iters := match options.iterations with
      | some i => if i = 0 then 10000 else i
      | none => 10000
    let klen := match options.keyLength with
      | some l => if l = 0 then 256 else l
      | none => 256
    let key := cp.pbkdf2 secret salt iters klen
    let ciphertext := cp.aesEncrypt key iv data
    .ok (stringify (.obj [("salt", .str salt), ("iv", .str iv),
      ("ciphertext", .str ciphertext), ("algorithm", .str options.algorithm)]))

/-- decrypt(encryptedData, secret): empty secret throws its own error; every
failure inside the try block (parse failure, algorithm mismatch, non-string
envelope members that make CryptoJS throw, empty decrypted result) surfaces
as the single opaque decrypt error.  The key is re-derived with the default
10000 iterations and 256-bit length regardless of encrypt-time options. -/
def decrypt (cp : CryptoPrimitives) (encryptedData secret : String) :
    Except String String :=
  if secret = "" then .error "Encryption secret is required"
  else
    match parseJson encryptedData with
    | none => .error "Failed to decrypt data. Check your secret key."
    | some parsed =>
      match getField parsed "algorithm", getField parsed "salt",
            getField parsed "iv", getField parsed "ciphertext" with
      | some (.str "AES-GCM"), some (.str salt), some (.str iv), some (.str ciphertext) =>
        let key := cp.pbkdf2 secret salt 10000 256
        let result := cp.aesDecrypt key iv ciphertext
        if result = "" then .error "Failed to decrypt data. Check your secret key."
        else .ok result
      | _, _, _, _ => .error "Failed to decrypt data. Check your secret key."

/-! ## Compression (src/compression/lz-string.ts) -/

/-- The LZString primitives: compressToUTF16 and decompressFromUTF16 (null
result modelled as none).  LZString is an external dependency. -/
structure CompressionPrimitives where
  compressUTF16 : String → String
  decompressUTF16 : String → Option String

structure CompressionOptions where
  minSize : Option Nat := none

def compress (lz : CompressionPrimitives) (data : String) : String :=
  lz.compressUTF16 data

/-- decompress: a null primitive result throws. -/
def decompress (lz : CompressionPrimitives) (compressedData : String) :
    Except String String :=
  match lz.decompressUTF16 compressedData with
  | some d => .ok d
  | none => .error "Failed to decompress data"

/-- shouldCompress(data, minSize = 1024). -/
def shouldCompress (data : String) (minSize : Nat) : Bool :=
  minSize ≤ data.length

/-! ## Storage adapters and layer composition (src/middleware/persist-plus.ts)

A synchronous StateStorage is modelled relative to an explicit backing store
(an association list of key/value strings).  getItem is read-only; setItem
returns the updated backing store or a thrown error (Except); removeItem
returns the updated store.  The Promise branches of the source are vacuous
for synchronous inner storages and are not modelled. -/

abbrev Store := List (String × String)

def storeLookup (st : Store) (n : String) : Option String :=
  List.lookup n st

def storeInsert (st : Store) (n v : String) : Store :=
  if st.any (fun e => e.1 == n) then st.map (fun e => if e.1 == n then (n, v) else e)
  else st ++ [(n, v)]

def storeErase (st : Store) (n : String) : Store :=
  st.filter (fun e => e.1 ≠ n)

structure StateStorage where
  getItem : Store → String → Option String
  setItem : Store → String → String → Except String Store
  removeItem : Store → String → Store

/-- The base key-value storage (localStorage when available). -/
def baseStorage : StateStorage where
  getItem := storeLookup
  setItem := fun st n v => .ok (storeInsert st n v)
  removeItem := storeErase

/-- An encryption option argument of type EncryptionOptions | boolean. -/
inductive EncryptSetting where
  | flag (b : Bool) : EncryptSetting
  | opts (o : EncryptionOptions) : EncryptSetting

/-- A compression option argument of type CompressionOptions | boolean. -/
inductive CompressSetting where
  | flag (b : Bool) : CompressSetting
  | opts (o : CompressionOptions) : CompressSetting

/-- createEncryptedStorage: on read, a failed decrypt falls back to the raw
stored value; on write, encrypt runs outside any catch, so its error
propagates to the caller. -/
def createEncryptedStorage (cp : CryptoPrimitives) (storage : StateStorage)
    (secret : String) (encryptionOptions : Option EncryptSetting) : StateStorage :=
  let options : EncryptionOptions := match encryptionOptions with
    | some (.flag _) => { algorithm := "AES-GCM" }
    | some (.opts o) => o
    | none => { algorithm := "AES-GCM" }
  { getItem := fun st name =>
      match storage.getItem st name with
      | none => none
      | some stored =>
        match decrypt cp stored secret with
        | .ok decrypted => some decrypted
        | .error _ => some stored
    setItem := fun st name value => do
      let encrypted ← encrypt cp value secret options
      storage.setItem st name encrypted
    removeItem := fun st name => storage.removeItem st name }

/-- createCompressedStorage: on read, a failed decompress falls back to the
raw stored value; on write, compression applies only above the size
threshold. -/
def createCompressedStorage (lz : CompressionPrimitives) (storage : StateStorage)
    (compressionOptions : Option CompressSetting) : StateStorage :=
  let options : Option CompressionOptions := match compressionOptions with
    | some (.flag _) => none
    | some (.opts o) => some o
    | none => none
  { getItem := fun st name =>
      match storage.getItem st name with
      | none => none
      | some stored =>
        match decompress lz stored with
        | .ok decompressed => some decompressed
        | .error _ => some stored
    setItem := fun st name value =>
      let minSize := match options with
        | some o => o.minSize.getD 1024
        | none => 1024
      if shouldCompress value minSize then storage.setItem st name (compress lz value)
      else storage.setItem st name value
    removeItem := fun st name => storage.removeItem st name }

/-- createMigratingStorage: both directions are total transforms of the value
(all throws are caught inside the adapter). -/
def createMigratingStorage (storage : StateStorage)
    (migrationOptions : MigrationOptions) : StateStorage where
  getItem := fun st name => migGetValue migrationOptions (storage.getItem st name)
  setItem := fun st name value => storage.setItem st name (migSetValue migrationOptions value)
  removeItem := fun st name => storage.removeItem st name

/-- PersistPlusOptions, restricted to the storage-chain members.  A storage
of none models the 'localStorage' string default. -/
structure PersistPlusOptions where
  storage : Option StateStorage := none
  encrypt : Option EncryptSetting := none
  compress : Option CompressSetting := none
  migrate : Option MigrationOptions := none

/-- createPersistPlus: migration innermost, then compression, then encryption
outermost.  The truthiness guards mean a boolean false option skips its
layer, and the boolean true encrypt option supplies the empty string as
secret. -/
def createPersistPlus (cp : CryptoPrimitives) (lz : CompressionPrimitives)
    (options : PersistPlusOptions) : StateStorage :=
  let s0 := options.storage.getD baseStorage
  let s1 := match options.migrate with
    | some mo => createMigratingStorage s0 mo
    | none => s0
  let s2 := match options.compress with
    | some (.flag false) => s1
    | some co => createCompressedStorage lz s1 (some co)
    | none => s1
  match options.encrypt with
  | some (.flag true) => createEncryptedStorage cp s2 "" (some (.flag true))
  | some (.flag false) => s2
  | some (.opts eo) => createEncryptedStorage cp s2 eo.secret (some (.opts eo))
  | none => s2

/-! ## Conflict resolver (cloud sync module) -/

/-- new Date(ts).getTime() on the timestamp field, with falsy (absent or 0)
timestamps giving epoch 0.  Non-numeric timestamp values (JS Date string
coercion) are outside the model; the claims use numeric-or-absent
timestamps. -/
def jsTimeOf (state : Json) (timestampKey : String) : Int :=
  match getField state timestampKey with
  | some (.num n) => n
  | _ => 0

/-- lastWriteWins(local, remote, timestampKey): remoteTime > localTime picks
remote, otherwise (ties included) local. -/
def lastWriteWins (localState remoteState : Json) (timestampKey : String) : Json :=
  if jsTimeOf remoteState timestampKey > jsTimeOf localState timestampKey then remoteState
  else localState

def serverWins (_localState remoteState : Json) : Json := remoteState

def clientWins (localState _remoteState : Json) : Json := localState

/-- Helper for the lexicographic termination of mergeStates: a looked-up
value is smaller than the field list holding it. -/
theorem sizeOf_lookup_lt {fs : List (String × Json)} {k : String} {v : Json}
    (h : List.lookup k fs = some v) : sizeOf v < sizeOf fs := by
  induction fs with
  | nil => simp [List.lookup] at h
  | cons e rest ih =>
    obtain ⟨k1, v1⟩ := e
    rw [List.lookup] at h
    split at h
    · cases h
      simp only [List.cons.sizeOf_spec, Prod.mk.sizeOf_spec]
      omega
    · have := ih h
      simp only [List.cons.sizeOf_spec, Prod.mk.sizeOf_spec]
      omega

/-- The Set([...Object.keys(local), ...Object.keys(remote)]) iteration
order: first occurrences, in order. -/
def dedupFirst : List String → List String
  | [] => []
  | k :: rest => k :: dedupFirst (rest.filter (fun x => x != k))
termination_by l => l.length
decreasing_by
  simp only [List.length_cons]
  have := List.length_filter_le (fun x => x != k) rest
  omega

mutual

/-- mergeStates(local, remote, options): result starts as a copy of local;
every key of either side is visited once (first-occurrence order); ignored
keys are skipped, forced keys take remote's value (an absent remote value,
assigned as undefined in JS, is modelled as key removal), two plain objects
recurse with no options, otherwise a defined remote value wins and an absent
one keeps local.  Non-object arguments (unreachable from the resolver and
from the recursion guards) collapse to the empty object as the JS spread of
a primitive does. -/
def mergeStates (localState remoteState : Json) (ignoreKeys forceLWWKeys : List String) : Json :=
  match localState, remoteState with
  | .obj lfs, .obj rfs =>
    .obj (mergeLoop lfs rfs ignoreKeys forceLWWKeys
      (dedupFirst (lfs.map Prod.fst ++ rfs.map Prod.fst)) lfs)
  | _, _ => .obj []
termination_by (sizeOf localState + sizeOf remoteState, 0)
decreasing_by
  apply Prod.Lex.left
  simp only [Json.obj.sizeOf_spec]
  omega

/-- The for-of loop over allKeys, threading the result object. -/
def mergeLoop (lfs rfs : List (String × Json)) (ig fo : List String)
    (ks : List String) (result : List (String × Json)) : List (String × Json) :=
  match ks with
  | [] => result
  | k :: ks' =>
    if k ∈ ig then mergeLoop lfs rfs ig fo ks' result
    else if k ∈ fo then
      match List.lookup k rfs with
      | some rv => mergeLoop lfs rfs ig fo ks' (insertLast result k rv)
      | none => mergeLoop lfs rfs ig fo ks' (eraseKey result k)
    else
      match h1 : List.lookup k lfs, h2 : List.lookup k rfs with
      | some (.obj lo), some (.obj ro) =>
        mergeLoop lfs rfs ig fo ks' (insertLast result k (mergeStates (.obj lo) (.obj ro) [] []))
      | _, some rv => mergeLoop lfs rfs ig fo ks' (insertLast result k rv)
      | _, none => mergeLoop lfs rfs ig fo ks' result
termination_by (sizeOf lfs + sizeOf rfs + 1, ks.length)
decreasing_by
  all_goals first
  | (apply Prod.Lex.right
     simp only [List.length_cons]
     omega)
  | (apply Prod.Lex.left
     have hl := sizeOf_lookup_lt h1
     have hr := sizeOf_lookup_lt h2
     simp only [Json.obj.sizeOf_spec] at hl hr ⊢
     omega)

end

/-- The strategy union type. -/
inductive SyncStrategy where
  | lastWriteWins : SyncStrategy
  | serverWins : SyncStrategy
  | clientWins : SyncStrategy
  | merge : SyncStrategy
  | custom : SyncStrategy
deriving DecidableEq

/-- SyncResult; the Date-valued resolution timestamp of the source is
nondeterministic wall-clock data and is not modelled. -/
structure SyncResultM where
  state : Json
  hadConflict : Bool
  strategy : SyncStrategy

/-- createConflictResolver(...).resolveWithResult.  The mutable resolver
state (current strategy, custom handler) and the pluggable merge strategy
become explicit arguments; mergeFn of none models the mergeStates default.
The serialize-equality short-circuit returns local before any strategy
dispatch. -/
def resolveWithResult (strategy : SyncStrategy) (timestampKey : Option String)
    (ignoreKeys forceLWWKeys : List String)
    (customHandler : Option (Json → Json → Json))
    (mergeFn : Option (Json → Json → Json))
    (localState remoteState : Json) : SyncResultM :=
  if stringify localState = stringify remoteState then
    { state := localState, hadConflict := false, strategy := .lastWriteWins }
  else
    let resolved := match strategy with
      | .lastWriteWins => lastWriteWins localState remoteState (timestampKey.getD "_updatedAt")
      | .serverWins => serverWins localState remoteState
      | .clientWins => clientWins localState remoteState
      | .merge =>
        match mergeFn with
        | some f => f localState remoteState
        | none => mergeStates localState remoteState ignoreKeys forceLWWKeys
      | .custom =>
        match customHandler with
        | some h => h localState remoteState
        | none => lastWriteWins localState remoteState (timestampKey.getD "_updatedAt")
    { state := resolved, hadConflict := true, strategy := strategy }

/-- createConflictResolver(...).resolve projects the state. -/
def resolve (strategy : SyncStrategy) (timestampKey : Option String)
    (ignoreKeys forceLWWKeys : List String)
    (customHandler : Option (Json → Json → Json))
    (mergeFn : Option (Json → Json → Json))
    (localState remoteState : Json) : Json :=
  (resolveWithResult strategy timestampKey ignoreKeys forceLWWKeys
    customHandler mergeFn localState remoteState).state

/-! ## Association-list lemmas -/

theorem lookup_eq_none_of_any_eq_false {fs : List (String × Json)} {k : String}
    (h : fs.any (fun e => e.1 == k) = false) : List.lookup k fs = none := by
  induction fs with
  | nil => rfl
  | cons e rest ih =>
    obtain ⟨k1, v1⟩ := e
    simp only [List.any_cons, Bool.or_eq_false_iff] at h
    rw [List.lookup]
    have h1 : k1 ≠ k := by simpa using h.1
    have hne : (k == k1) = false := by simp [Ne.symm h1]
    rw [hne]
    exact ih h.2

theorem lookup_insertLast_self (fs : List (String × Json)) (k : String) (v : Json) :
    List.lookup k (insertLast fs k v) = some v := by
  induction fs with
  | nil => simp [insertLast, List.lookup]
  | cons e rest ih =>
    obtain ⟨k1, v1⟩ := e
    rw [insertLast]
    by_cases hk : k1 = k
    · rw [if_pos hk, List.lookup]
      simp
    · rw [if_neg hk, List.lookup]
      have : (k == k1) = false := by simp [Ne.symm hk]
      rw [this]
      exact ih

theorem lookup_insertLast_ne (fs : List (String × Json)) {k k' : String} (v : Json)
    (h : k' ≠ k) : List.lookup k' (insertLast fs k v) = List.lookup k' fs := by
  induction fs with
  | nil =>
    have hb : (k' == k) = false := by simp [h]
    simp [insertLast, List.lookup, hb]
  | cons e rest ih =>
    obtain ⟨k1, v1⟩ := e
    rw [insertLast]
    by_cases hk : k1 = k
    · subst hk
      rw [if_pos rfl, List.lookup, List.lookup]
      have : (k' == k1) = false := by simp [h]
      rw [this]
    · rw [if_neg hk, List.lookup, List.lookup]
      cases hke : (k' == k1) with
      | true => rfl
      | false => exact ih

theorem lookup_eraseKey_self (fs : List (String × Json)) (k : String) :
    List.lookup k (eraseKey fs k) = none := by
  rw [eraseKey]
  induction fs with
  | nil => rfl
  | cons e rest ih =>
    obtain ⟨k1, v1⟩ := e
    by_cases hk : k1 = k
    · subst hk
      simpa using ih
    · have : (decide ¬(k1, v1).1 = k) = true := by simp [hk]
      simp only [List.filter_cons, this, reduceIte]
      rw [List.lookup]
      have : (k == k1) = false := by simp [Ne.symm hk]
      rw [this]
      exact ih

theorem mem_keys_of_lookup_eq_some {fs : List (String × Json)} {k : String} {v : Json}
    (h : List.lookup k fs = some v) : k ∈ fs.map Prod.fst := by
  induction fs with
  | nil => cases h
  | cons e rest ih =>
    obtain ⟨k1, v1⟩ := e
    rw [List.lookup] at h
    cases hke : (k == k1) with
    | true =>
      have : k = k1 := by simpa using hke
      simp [this]
    | false =>
      rw [hke] at h
      simpa using Or.inr (ih h)

theorem lookup_eq_none_of_not_mem_keys {fs : List (String × Json)} {k : String}
    (h : k ∉ fs.map Prod.fst) : List.lookup k fs = none := by
  cases hl : List.lookup k fs with
  | none => rfl
  | some v => exact absurd (mem_keys_of_lookup_eq_some hl) h

theorem lookup_eraseKey_ne (fs : List (String × Json)) {k k' : String}
    (h : k' ≠ k) : List.lookup k' (eraseKey fs k) = List.lookup k' fs := by
  rw [eraseKey]
  induction fs with
  | nil => rfl
  | cons e rest ih =>
    obtain ⟨k1, v1⟩ := e
    by_cases hk : k1 = k
    · subst hk
      have hne : (k' == k1) = false := by simp [h]
      simp only [List.filter_cons, decide_not, decide_True, Bool.not_true, Bool.false_eq_true,
        not_false_iff, reduceIte]
      rw [List.lookup, hne]
      simpa using ih
    · have : (decide ¬(k1, v1).1 = k) = true := by simp [hk]
      simp only [List.filter_cons, this, reduceIte]
      rw [List.lookup, List.lookup]
      cases hke : (k' == k1) with
      | true => rfl
      | false => exact ih

/-! ## dedupFirst lemmas -/

theorem mem_dedupFirst {k : String} : ∀ {l : List String}, k ∈ dedupFirst l ↔ k ∈ l := by
  intro l
  induction l using dedupFirst.induct with
  | case1 => simp [dedupFirst]
  | case2 k1 rest ih =>
    rw [dedupFirst]
    by_cases hk : k = k1
    · subst hk
      simp
    · simp only [List.mem_cons, ih, List.mem_filter, bne_iff_ne, ne_eq]
      constructor
      · rintro (h | h)
        · exact Or.inl h
        · exact Or.inr h.1
      · rintro (h | h)
        · exact Or.inl h
        · exact Or.inr ⟨h, by simpa using hk⟩

theorem nodup_dedupFirst : ∀ (l : List String), (dedupFirst l).Nodup := by
  intro l
  induction l using dedupFirst.induct with
  | case1 => simp [dedupFirst]
  | case2 k1 rest ih =>
    rw [dedupFirst]
    refine List.nodup_cons.mpr ⟨?_, ih⟩
    intro hmem
    have := (mem_dedupFirst.mp hmem)
    rw [List.mem_filter] at this
    simp at this

/-! ## mergeLoop characterization -/

theorem mergeLoop_lookup_notin {lfs rfs : List (String × Json)} {ig fo : List String}
    {ks : List String} {k : String} (h : k ∉ ks) :
    ∀ result, List.lookup k (mergeLoop lfs rfs ig fo ks result) = List.lookup k result := by
  induction ks with
  | nil =>
    intro result
    unfold mergeLoop
    rfl
  | cons k1 ks' ih =>
    intro result
    have hne : k ≠ k1 := fun e => h (e ▸ List.mem_cons_self k1 ks')
    have hks' : k ∉ ks' := fun m => h (List.mem_cons_of_mem _ m)
    conv_lhs => unfold mergeLoop
    by_cases h1 : k1 ∈ ig
    · rw [if_pos h1]
      exact ih hks' result
    · rw [if_neg h1]
      by_cases h2 : k1 ∈ fo
      · rw [if_pos h2]
        cases hr : List.lookup k1 rfs with
        | some rv => rw [ih hks', lookup_insertLast_ne _ _ hne]
        | none => rw [ih hks', lookup_eraseKey_ne _ hne]
      · rw [if_neg h2]
        split
        · rw [ih hks', lookup_insertLast_ne _ _ hne]
        · rw [ih hks', lookup_insertLast_ne _ _ hne]
        · rw [ih hks']

/-- The loop result at key k depends on the accumulated result object only
through its binding at k. -/
theorem mergeLoop_lookup_congr {lfs rfs : List (String × Json)} {ig fo : List String}
    {k : String} : ∀ (ks : List String) (result1 result2 : List (String × Json)),
    List.lookup k result1 = List.lookup k result2 →
    List.lookup k (mergeLoop lfs rfs ig fo ks result1)
      = List.lookup k (mergeLoop lfs rfs ig fo ks result2) := by
  intro ks
  induction ks with
  | nil =>
    intro r1 r2 h
    unfold mergeLoop
    exact h
  | cons k1 ks' ih =>
    intro r1 r2 h
    have hins : ∀ v, List.lookup k (insertLast r1 k1 v) = List.lookup k (insertLast r2 k1 v) := by
      intro v
      by_cases hk : k = k1
      · subst hk
        rw [lookup_insertLast_self, lookup_insertLast_self]
      · rw [lookup_insertLast_ne _ _ hk, lookup_insertLast_ne _ _ hk]
        exact h
    have hera : List.lookup k (eraseKey r1 k1) = List.lookup k (eraseKey r2 k1) := by
      by_cases hk : k = k1
      · subst hk
        rw [lookup_eraseKey_self, lookup_eraseKey_self]
      · rw [lookup_eraseKey_ne _ hk, lookup_eraseKey_ne _ hk]
        exact h
    conv_lhs => unfold mergeLoop
    conv_rhs => unfold mergeLoop
    by_cases h1 : k1 ∈ ig
    · rw [if_pos h1, if_pos h1]
      exact ih r1 r2 h
    · rw [if_neg h1, if_neg h1]
      by_cases h2 : k1 ∈ fo
      · rw [if_pos h2, if_pos h2]
        cases hr : List.lookup k1 rfs with
        | some rv => exact ih _ _ (hins rv)
        | none => exact ih _ _ hera
      · rw [if_neg h2, if_neg h2]
        split
        · exact ih _ _ (hins _)
        · exact ih _ _ (hins _)
        · exact ih r1 r2 h

/-- Processing a key other than k leaves the k-binding of the final result
the same as not processing it at all. -/
theorem mergeLoop_cons_ne {lfs rfs : List (String × Json)} {ig fo : List String}
    {k k1 : String} {ks' : List String} (hne : k ≠ k1)
    (result : List (String × Json)) :
    List.lookup k (mergeLoop lfs rfs ig fo (k1 :: ks') result)
      = List.lookup k (mergeLoop lfs rfs ig fo ks' result) := by
  conv_lhs => unfold mergeLoop
  by_cases h1 : k1 ∈ ig
  · rw [if_pos h1]
  · rw [if_neg h1]
    by_cases h2 : k1 ∈ fo
    · rw [if_pos h2]
      cases hr : List.lookup k1 rfs with
      | some rv => exact mergeLoop_lookup_congr _ _ _ (lookup_insertLast_ne _ _ hne)
      | none => exact mergeLoop_lookup_congr _ _ _ (lookup_eraseKey_ne _ hne)
    · rw [if_neg h2]
      split
      · exact mergeLoop_lookup_congr _ _ _ (lookup_insertLast_ne _ _ hne)
      · exact mergeLoop_lookup_congr _ _ _ (lookup_insertLast_ne _ _ hne)
      · rfl

/-- An ignored key is never written by the loop. -/
theorem mergeLoop_lookup_ig {lfs rfs : List (String × Json)} {ig fo : List String}
    {k : String} (h1 : k ∈ ig) : ∀ (ks : List String) (result : List (String × Json)),
    List.lookup k (mergeLoop lfs rfs ig fo ks result) = List.lookup k result := by
  intro ks
  induction ks with
  | nil =>
    intro result
    unfold mergeLoop
    rfl
  | cons k1 ks' ih =>
    intro result
    by_cases hk : k = k1
    · subst hk
      conv_lhs => unfold mergeLoop
      rw [if_pos h1]
      exact ih result
    · rw [mergeLoop_cons_ne hk]
      exact ih result

/-- A forced key ends up bound to remote's value (or unbound when remote
does not define it). -/
theorem mergeLoop_lookup_fo {lfs rfs : List (String × Json)} {ig fo : List String}
    {ks : List String} {k : String} (hmem : k ∈ ks) (hnd : ks.Nodup)
    (h1 : k ∉ ig) (h2 : k ∈ fo) (result : List (String × Json)) :
    List.lookup k (mergeLoop lfs rfs ig fo ks result) = List.lookup k rfs := by
  induction ks generalizing result with
  | nil => cases hmem
  | cons k1 ks' ih =>
    by_cases hk : k = k1
    · subst hk
      have hks' : k ∉ ks' := (List.nodup_cons.mp hnd).1
      conv_lhs => unfold mergeLoop
      rw [if_neg h1, if_pos h2]
      cases hr : List.lookup k rfs with
      | some rv => rw [mergeLoop_lookup_notin hks', lookup_insertLast_self]
      | none => rw [mergeLoop_lookup_notin hks', lookup_eraseKey_self]
    · rw [mergeLoop_cons_ne hk]
      have hmem' : k ∈ ks' := (List.mem_cons.mp hmem).resolve_left hk
      exact ih hmem' (List.nodup_cons.mp hnd).2 result

/-- Two plain-object values merge recursively, with no options passed down. -/
theorem mergeLoop_lookup_objs {lfs rfs : List (String × Json)} {ig fo : List String}
    {ks : List String} {k : String} {lo ro : List (String × Json)}
    (hmem : k ∈ ks) (hnd : ks.Nodup) (h1 : k ∉ ig) (h2 : k ∉ fo)
    (hl : List.lookup k lfs = some (.obj lo)) (hr : List.lookup k rfs = some (.obj ro))
    (result : List (String × Json)) :
    List.lookup k (mergeLoop lfs rfs ig fo ks result)
      = some (mergeStates (.obj lo) (.obj ro) [] []) := by
  induction ks generalizing result with
  | nil => cases hmem
  | cons k1 ks' ih =>
    by_cases hk : k = k1
    · subst hk
      have hks' : k ∉ ks' := (List.nodup_cons.mp hnd).1
      conv_lhs => unfold mergeLoop
      rw [if_neg h1, if_neg h2]
      split
      · rename_i lo2 ro2 heq1 heq2
        rw [hl] at heq1
        rw [hr] at heq2
        cases heq1
        cases heq2
        rw [mergeLoop_lookup_notin hks', lookup_insertLast_self]
      · rename_i rv heq hno
        rw [hr] at heq
        cases heq
        exact (hno lo ro hl rfl).elim
      · rename_i heq
        rw [hr] at heq
        cases heq
    · rw [mergeLoop_cons_ne hk]
      have hmem' : k ∈ ks' := (List.mem_cons.mp hmem).resolve_left hk
      exact ih hmem' (List.nodup_cons.mp hnd).2 result

/-- When remote defines the key but the two values are not both plain
objects, remote's value wins. -/
theorem mergeLoop_lookup_remote {lfs rfs : List (String × Json)} {ig fo : List String}
    {ks : List String} {k : String} {rv : Json}
    (hmem : k ∈ ks) (hnd : ks.Nodup) (h1 : k ∉ ig) (h2 : k ∉ fo)
    (hr : List.lookup k rfs = some rv)
    (hno : ∀ lo ro, List.lookup k lfs = some (.obj lo) → rv = .obj ro → False)
    (result : List (String × Json)) :
    List.lookup k (mergeLoop lfs rfs ig fo ks result) = some rv := by
  induction ks generalizing result with
  | nil => cases hmem
  | cons k1 ks' ih =>
    by_cases hk : k = k1
    · subst hk
      have hks' : k ∉ ks' := (List.nodup_cons.mp hnd).1
      conv_lhs => unfold mergeLoop
      rw [if_neg h1, if_neg h2]
      split
      · rename_i lo2 ro2 heq1 heq2
        rw [hr] at heq2
        cases heq2
        exact (hno lo2 ro2 heq1 rfl).elim
      · rename_i rv2 heq hno2
        rw [hr] at heq
        cases heq
        rw [mergeLoop_lookup_notin hks', lookup_insertLast_self]
      · rename_i heq
        rw [hr] at heq
        cases heq
    · rw [mergeLoop_cons_ne hk]
      have hmem' : k ∈ ks' := (List.mem_cons.mp hmem).resolve_left hk
      exact ih hmem' (List.nodup_cons.mp hnd).2 result

/-- When remote does not define the key (and it is neither ignored nor
forced), the result keeps whatever the accumulated object held. -/
theorem mergeLoop_lookup_noremote {lfs rfs : List (String × Json)} {ig fo : List String}
    {ks : List String} {k : String}
    (hmem : k ∈ ks) (hnd : ks.Nodup) (h1 : k ∉ ig) (h2 : k ∉ fo)
    (hr : List.lookup k rfs = none) (result : List (String × Json)) :
    List.lookup k (mergeLoop lfs rfs ig fo ks result) = List.lookup k result := by
  induction ks generalizing result with
  | nil => cases hmem
  | cons k1 ks' ih =>
    by_cases hk : k = k1
    · subst hk
      have hks' : k ∉ ks' := (List.nodup_cons.mp hnd).1
      conv_lhs => unfold mergeLoop
      rw [if_neg h1, if_neg h2]
      split
      · rename_i lo2 ro2 heq1 heq2
        rw [hr] at heq2
        cases heq2
      · rename_i rv2 heq hno2
        rw [hr] at heq
        cases heq
      · exact mergeLoop_lookup_notin hks' result
    · rw [mergeLoop_cons_ne hk]
      have hmem' : k ∈ ks' := (List.mem_cons.mp hmem).resolve_left hk
      exact ih hmem' (List.nodup_cons.mp hnd).2 result

/-- The merge of two objects unfolds to the key loop over the deduplicated
union of key lists, seeded with a copy of local. -/
theorem mergeStates_obj_eq (lfs rfs : List (String × Json)) (ig fo : List String) :
    mergeStates (.obj lfs) (.obj rfs) ig fo
      = .obj (mergeLoop lfs rfs ig fo
          (dedupFirst (lfs.map Prod.fst ++ rfs.map Prod.fst)) lfs) := by
  unfold mergeStates
  rfl

theorem mergeResult_lookup_ig {lfs rfs : List (String × Json)} {ig fo : List String}
    {k : String} (h1 : k ∈ ig) :
    List.lookup k (mergeLoop lfs rfs ig fo
      (dedupFirst (lfs.map Prod.fst ++ rfs.map Prod.fst)) lfs) = List.lookup k lfs :=
  mergeLoop_lookup_ig h1 _ lfs

theorem mergeResult_lookup_fo {lfs rfs : List (String × Json)} {ig fo : List String}
    {k : String} (h1 : k ∉ ig) (h2 : k ∈ fo) :
    List.lookup k (mergeLoop lfs rfs ig fo
      (dedupFirst (lfs.map Prod.fst ++ rfs.map Prod.fst)) lfs) = List.lookup k rfs := by
  by_cases hmem : k ∈ dedupFirst (lfs.map Prod.fst ++ rfs.map Prod.fst)
  · exact mergeLoop_lookup_fo hmem (nodup_dedupFirst _) h1 h2 lfs
  · rw [mergeLoop_lookup_notin hmem]
    have hkl : k ∉ lfs.map Prod.fst :=
      fun m => hmem (mem_dedupFirst.mpr (List.mem_append.mpr (Or.inl m)))
    have hkr : k ∉ rfs.map Prod.fst :=
      fun m => hmem (mem_dedupFirst.mpr (List.mem_append.mpr (Or.inr m)))
    rw [lookup_eq_none_of_not_mem_keys hkl, lookup_eq_none_of_not_mem_keys hkr]

theorem mergeResult_lookup_objs {lfs rfs : List (String × Json)} {ig fo : List String}
    {k : String} {lo ro : List (String × Json)} (h1 : k ∉ ig) (h2 : k ∉ fo)
    (hl : List.lookup k lfs = some (.obj lo)) (hr : List.lookup k rfs = some (.obj ro)) :
    List.lookup k (mergeLoop lfs rfs ig fo
      (dedupFirst (lfs.map Prod.fst ++ rfs.map Prod.fst)) lfs)
      = some (mergeStates (.obj lo) (.obj ro) [] []) := by
  have hmem : k ∈ dedupFirst (lfs.map Prod.fst ++ rfs.map Prod.fst) :=
    mem_dedupFirst.mpr (List.mem_append.mpr (Or.inl (mem_keys_of_lookup_eq_some hl)))
  exact mergeLoop_lookup_objs hmem (nodup_dedupFirst _) h1 h2 hl hr lfs

theorem mergeResult_lookup_remote {lfs rfs : List (String × Json)} {ig fo : List String}
    {k : String} {rv : Json} (h1 : k ∉ ig) (h2 : k ∉ fo)
    (hr : List.lookup k rfs = some rv)
    (hno : ∀ lo ro, List.lookup k lfs = some (.obj lo) → rv = .obj ro → False) :
    List.lookup k (mergeLoop lfs rfs ig fo
      (dedupFirst (lfs.map Prod.fst ++ rfs.map Prod.fst)) lfs) = some rv := by
  have hmem : k ∈ dedupFirst (lfs.map Prod.fst ++ rfs.map Prod.fst) :=
    mem_dedupFirst.mpr (List.mem_append.mpr (Or.inr (mem_keys_of_lookup_eq_some hr)))
  exact mergeLoop_lookup_remote hmem (nodup_dedupFirst _) h1 h2 hr hno lfs

theorem mergeResult_lookup_noremote {lfs rfs : List (String × Json)} {ig fo : List String}
    {k : String} (h1 : k ∉ ig) (h2 : k ∉ fo) (hr : List.lookup k rfs = none) :
    List.lookup k (mergeLoop lfs rfs ig fo
      (dedupFirst (lfs.map Prod.fst ++ rfs.map Prod.fst)) lfs) = List.lookup k lfs := by
  by_cases hmem : k ∈ dedupFirst (lfs.map Prod.fst ++ rfs.map Prod.fst)
  · exact mergeLoop_lookup_noremote hmem (nodup_dedupFirst _) h1 h2 hr lfs
  · exact mergeLoop_lookup_notin hmem lfs

/-- C6.  The merge strategy, per key of either side: ignored keys keep
local's binding, forced keys take remote's binding unconditionally, two
plain-object values merge recursively, otherwise a defined remote value wins
and an undefined one keeps local's; arrays are replaced wholesale by remote;
and the documented example merges as specified. -/
theorem claim_C6 :
    (∀ (lfs rfs : List (String × Json)) (ig fo : List String),
      ∃ mfs, mergeStates (.obj lfs) (.obj rfs) ig fo = .obj mfs ∧
        ∀ k : String,
          (k ∈ ig → List.lookup k mfs = List.lookup k lfs) ∧
          (k ∉ ig → k ∈ fo → List.lookup k mfs = List.lookup k rfs) ∧
          (∀ lo ro, k ∉ ig → k ∉ fo → List.lookup k lfs = some (.obj lo) →
            List.lookup k rfs = some (.obj ro) →
            List.lookup k mfs = some (mergeStates (.obj lo) (.obj ro) [] [])) ∧
          (∀ rv, k ∉ ig → k ∉ fo → List.lookup k rfs = some rv →
            (∀ lo ro, List.lookup k lfs = some (.obj lo) → rv = .obj ro → False) →
            List.lookup k mfs = some rv) ∧
          (k ∉ ig → k ∉ fo → List.lookup k rfs = none →
            List.lookup k mfs = List.lookup k lfs) ∧
          (∀ xs, k ∉ ig → k ∉ fo → List.lookup k rfs = some (.arr xs) →
            List.lookup k mfs = some (.arr xs))) ∧
    mergeStates (.obj [("a", .num 1), ("b", .obj [("c", .num 2)])])
        (.obj [("a", .num 2), ("b", .obj [("d", .num 3)]), ("e", .num 4)]) [] []
      = .obj [("a", .num 2), ("b", .obj [("c", .num 2), ("d", .num 3)]), ("e", .num 4)] := by
  constructor
  · intro lfs rfs ig fo
    refine ⟨_, mergeStates_obj_eq lfs rfs ig fo, ?_⟩
    intro k
    refine ⟨fun h1 => mergeResult_lookup_ig h1,
            fun h1 h2 => mergeResult_lookup_fo h1 h2,
            fun lo ro h1 h2 hl hr => mergeResult_lookup_objs h1 h2 hl hr,
            fun rv h1 h2 hr hno => mergeResult_lookup_remote h1 h2 hr hno,
            fun h1 h2 hr => mergeResult_lookup_noremote h1 h2 hr,
            fun xs h1 h2 hr => mergeResult_lookup_remote h1 h2 hr ?_⟩
    intro lo ro _ hco
    cases hco
  · simp [mergeStates, mergeLoop, dedupFirst, insertLast, eraseKey, List.lookup]

/-- C6 witness: the general characterization applied to the documented
example, with every hypothesis discharged concretely. -/
theorem claim_C6_witness :
    ∃ mfs, mergeStates (.obj [("a", .num 1), ("b", .obj [("c", .num 2)])])
        (.obj [("a", .num 2), ("b", .obj [("d", .num 3)]), ("e", .num 4)]) ["x"] ["y"]
        = .obj mfs ∧ List.lookup "a" mfs = some (.num 2) := by
  obtain ⟨mfs, hmfs, hk⟩ := claim_C6.1 [("a", .num 1), ("b", .obj [("c", .num 2)])]
    [("a", .num 2), ("b", .obj [("d", .num 3)]), ("e", .num 4)] ["x"] ["y"]
  refine ⟨mfs, hmfs, ?_⟩
  have h4 := (hk "a").2.2.2.1 (.num 2) (by decide) (by decide) (by rfl) ?_
  · exact h4
  · intro lo ro hl hco
    cases hl

/-- C10.  The ignoreKeys and forceLastWriteWinsKeys options apply only at
the top level: the recursive call on a pair of nested objects passes no
options, so nested occurrences of those key names are merged under the
default rules; concretely, a nested key listed in ignoreKeys still takes
remote's value. -/
theorem claim_C10 :
    (∀ (lfs rfs : List (String × Json)) (ig fo : List String) (k : String)
      (lo ro : List (String × Json)), k ∉ ig → k ∉ fo →
      List.lookup k lfs = some (.obj lo) → List.lookup k rfs = some (.obj ro) →
      ∃ mfs, mergeStates (.obj lfs) (.obj rfs) ig fo = .obj mfs ∧
        List.lookup k mfs = some (mergeStates (.obj lo) (.obj ro) [] [])) ∧
    mergeStates (.obj [("a", .obj [("secret", .num 1)])])
        (.obj [("a", .obj [("secret", .num 2)])]) ["secret"] []
      = .obj [("a", .obj [("secret", .num 2)])] := by
  constructor
  · intro lfs rfs ig fo k lo ro h1 h2 hl hr
    exact ⟨_, mergeStates_obj_eq lfs rfs ig fo, mergeResult_lookup_objs h1 h2 hl hr⟩
  · simp [mergeStates, mergeLoop, dedupFirst, insertLast, eraseKey, List.lookup]

/-- C10 witness: the recursion-drops-options fact applied to the concrete
nested-ignoreKeys example. -/
theorem claim_C10_witness :
    ∃ mfs, mergeStates (.obj [("a", .obj [("secret", .num 1)])])
        (.obj [("a", .obj [("secret", .num 2)])]) ["secret"] [] = .obj mfs ∧
      List.lookup "a" mfs
        = some (mergeStates (.obj [("secret", .num 1)]) (.obj [("secret", .num 2)]) [] []) := by
  exact claim_C10.1 [("a", .obj [("secret", .num 1)])] [("a", .obj [("secret", .num 2)])]
    ["secret"] [] "a" [("secret", .num 1)] [("secret", .num 2)]
    (by decide) (by decide) (by rfl) (by rfl)

/-- C5.  Whenever the two candidate states serialize identically, the
resolver returns local with hadConflict = false, for every configured
strategy and independently of any custom handler or merge function (which
are therefore never consulted); in particular resolve(x, x) = x with no
conflict reported. -/
theorem claim_C5 :
    (∀ (strategy : SyncStrategy) (timestampKey : Option String)
       (ignoreKeys forceLWWKeys : List String)
       (customHandler mergeFn : Option (Json → Json → Json))
       (localState remoteState : Json),
      stringify localState = stringify remoteState →
      resolveWithResult strategy timestampKey ignoreKeys forceLWWKeys
          customHandler mergeFn localState remoteState
        = { state := localState, hadConflict := false, strategy := .lastWriteWins }) ∧
    (∀ (strategy : SyncStrategy) (timestampKey : Option String)
       (ignoreKeys forceLWWKeys : List String)
       (customHandler mergeFn : Option (Json → Json → Json)) (x : Json),
      resolve strategy timestampKey ignoreKeys forceLWWKeys customHandler mergeFn x x = x ∧
      (resolveWithResult strategy timestampKey ignoreKeys forceLWWKeys
          customHandler mergeFn x x).hadConflict = false) := by
  constructor
  · intro strat ts ig fo ch mf l r h
    unfold resolveWithResult
    rw [if_pos h]
  · intro strat ts ig fo ch mf x
    constructor
    · unfold resolve resolveWithResult
      rw [if_pos rfl]
    · unfold resolveWithResult
      rw [if_pos rfl]

/-- C5 witness: a custom-strategy resolver with a remote-preferring handler
still short-circuits on serialize-equal states. -/
theorem claim_C5_witness :
    resolveWithResult .custom none [] [] (some (fun _ r => r)) none
        (.obj [("a", .num 1)]) (.obj [("a", .num 1)])
      = { state := .obj [("a", .num 1)], hadConflict := false, strategy := .lastWriteWins } :=
  claim_C5.1 .custom none [] [] (some (fun _ r => r)) none _ _ (by rfl)

/-- C7.  last-write-wins reads the timestamp field (default name _updatedAt)
on both sides, treats a missing timestamp as epoch 0, returns the side with
the strictly greater timestamp and local on ties; local at 100 versus remote
at 200 returns remote. -/
theorem claim_C7 :
    (∀ (l r : Json) (lt rt : Int),
      getField l "_updatedAt" = some (.num lt) → getField r "_updatedAt" = some (.num rt) →
      lastWriteWins l r "_updatedAt" = if lt < rt then r else l) ∧
    (∀ (l r : Json) (key : String), getField r key = none →
      lastWriteWins l r key = if jsTimeOf l key < 0 then r else l) ∧
    (∀ (l r : Json) (key : String), getField l key = none →
      lastWriteWins l r key = if 0 < jsTimeOf r key then r else l) ∧
    (∀ (ig fo : List String) (ch mf : Option (Json → Json → Json)) (l r : Json),
      ¬ stringify l = stringify r →
      resolveWithResult .lastWriteWins none ig fo ch mf l r
        = { state := lastWriteWins l r "_updatedAt", hadConflict := true,
            strategy := .lastWriteWins }) ∧
    lastWriteWins (.obj [("_updatedAt", .num 100)]) (.obj [("_updatedAt", .num 200)])
        "_updatedAt" = .obj [("_updatedAt", .num 200)] := by
  refine ⟨?_, ?_, ?_, ?_, by rfl⟩
  · intro l r lt rt hl hr
    have h1 : jsTimeOf l "_updatedAt" = lt := by rw [jsTimeOf, hl]
    have h2 : jsTimeOf r "_updatedAt" = rt := by rw [jsTimeOf, hr]
    rw [lastWriteWins, h1, h2]
  · intro l r key hr
    have h2 : jsTimeOf r key = 0 := by rw [jsTimeOf, hr]
    rw [lastWriteWins, h2]
  · intro l r key hl
    have h1 : jsTimeOf l key = 0 := by rw [jsTimeOf, hl]
    rw [lastWriteWins, h1]
  · intro ig fo ch mf l r h
    unfold resolveWithResult
    rw [if_neg h]
    rfl

/-- C7 witness: the characterization applied to the documented scenario. -/
theorem claim_C7_witness :
    lastWriteWins (.obj [("_updatedAt", .num 100)]) (.obj [("_updatedAt", .num 200)])
        "_updatedAt"
      = if (100 : Int) < 200 then .obj [("_updatedAt", .num 200)]
        else .obj [("_updatedAt", .num 100)] :=
  claim_C7.1 _ _ 100 200 (by rfl) (by rfl)

/-! ## Migration engine theorems -/

/-- One loop iteration: apply migrations[v] when present. -/
def migStep (migs : Int → Option (Json → Json)) (st : Json) (v : Int) : Json :=
  match migs v with
  | some f => f st
  | none => st

/-- The versions visited by the loop: v0, v0+1, ..., v0+n-1. -/
def versionRange (v0 : Int) : Nat → List Int
  | 0 => []
  | Nat.succ n => v0 :: versionRange (v0 + 1) n

theorem applyMigrationsFrom_eq_foldl (migs : Int → Option (Json → Json)) :
    ∀ (n : Nat) (v0 : Int) (st : Json),
    applyMigrationsFrom migs n v0 st = (versionRange v0 n).foldl (migStep migs) st := by
  intro n
  induction n with
  | zero => intro v0 st; rfl
  | succ n ih =>
    intro v0 st
    rw [applyMigrationsFrom, versionRange, List.foldl_cons]
    exact ih (v0 + 1) _

theorem mem_versionRange {x v0 : Int} : ∀ {n : Nat}, x ∈ versionRange v0 n → v0 ≤ x := by
  suffices h : ∀ (n : Nat) (w : Int), x ∈ versionRange w n → w ≤ x by
    intro n
    exact h n v0
  intro n
  induction n with
  | zero => intro w hw; cases hw
  | succ n ih =>
    intro w hw
    rw [versionRange] at hw
    rcases List.mem_cons.mp hw with rfl | hw'
    · exact le_refl x
    · have := ih (w + 1) hw'
      omega

theorem pairwise_lt_versionRange : ∀ (n : Nat) (v0 : Int),
    (versionRange v0 n).Pairwise (· < ·) := by
  intro n
  induction n with
  | zero => intro v0; exact List.Pairwise.nil
  | succ n ih =>
    intro v0
    rw [versionRange]
    refine List.Pairwise.cons ?_ (ih (v0 + 1))
    intro y hy
    have := mem_versionRange hy
    omega

theorem foldl_migStep_skip (migs : Int → Option (Json → Json)) (v' : Int)
    (h : migs v' = none) (l1 l2 : List Int) (st : Json) :
    (l1 ++ v' :: l2).foldl (migStep migs) st = (l1 ++ l2).foldl (migStep migs) st := by
  rw [List.foldl_append, List.foldl_append, List.foldl_cons]
  have : migStep migs (l1.foldl (migStep migs) st) v' = l1.foldl (migStep migs) st := by
    rw [migStep, h]
  rw [this]

/-- The migration of the documented scenario that adds a createdAt field. -/
def addCreatedAt : Json → Json
  | .obj fs => .obj (insertLast fs "createdAt" (.str "2026-01-30"))
  | j => j

/-- The migration of the documented scenario that renames count to total. -/
def renameCountToTotal : Json → Json
  | .obj fs => .obj (fs.map (fun e => if e.1 = "count" then ("total", e.2) else e))
  | j => j

/-- The migration table of the documented scenario. -/
def scenarioMigs : Int → Option (Json → Json) := fun v =>
  if v = 1 then some addCreatedAt
  else if v = 2 then some renameCountToTotal
  else none

/-- C4.  On read below the configured version, the migration loop visits the
versions storedVersion+1 .. version in strictly increasing order (a left
fold over that list), a missing migration entry is skipped silently without
blocking later ones, the result is stamped with _version = configured
version, and on the documented scenario the stored value migrates to the
expected payload. -/
theorem claim_C4 :
    (∀ (migs : Int → Option (Json → Json)) (n : Nat) (v0 : Int) (st : Json),
      applyMigrationsFrom migs n v0 st = (versionRange v0 n).foldl (migStep migs) st) ∧
    (∀ (n : Nat) (v0 : Int), (versionRange v0 n).Pairwise (· < ·)) ∧
    (∀ (migs : Int → Option (Json → Json)) (v' : Int), migs v' = none →
      ∀ (l1 l2 : List Int) (st : Json),
      (l1 ++ v' :: l2).foldl (migStep migs) st = (l1 ++ l2).foldl (migStep migs) st) ∧
    (∀ (mo : MigrationOptions) (s : String) (parsed : Json) (fs' : List (String × Json)),
      parseJson s = some parsed → storedVersionOf parsed < mo.version →
      applyMigrationsFrom mo.migrations (mo.version - storedVersionOf parsed).toNat
          (storedVersionOf parsed + 1) parsed = .obj fs' →
      migGetValue mo (some s)
        = some (stringify (.obj (insertLast fs' "_version" (.num mo.version)))) ∧
      List.lookup "_version" (insertLast fs' "_version" (.num mo.version))
        = some (.num mo.version)) ∧
    migGetValue ⟨2, scenarioMigs⟩ (some "\x7b\"count\":5\x7d")
      = some "\x7b\"total\":5,\"createdAt\":\"2026-01-30\",\"_version\":2\x7d" := by
  refine ⟨fun migs n v0 st => applyMigrationsFrom_eq_foldl migs n v0 st,
          fun n v0 => pairwise_lt_versionRange n v0,
          fun migs v' h l1 l2 st => foldl_migStep_skip migs v' h l1 l2 st,
          ?_, by rfl⟩
  intro mo s parsed fs' h1 h2 h3
  constructor
  · simp only [migGetValue, h1]
    rw [if_pos h2, h3]
    rfl
  · exact lookup_insertLast_self fs' "_version" (.num mo.version)

/-- C4 witness: a migration table with an entry only at version 2 (a gap at
version 1) still applies the later migration, and the stamped read of the
scenario follows from the general stamping fact. -/
theorem claim_C4_witness :
    (([] ++ (1 : Int) :: [2]).foldl
        (migStep (fun v => if v = 2 then some addCreatedAt else none)) (.obj [("z", .num 9)])
      = ([] ++ [(2 : Int)]).foldl
        (migStep (fun v => if v = 2 then some addCreatedAt else none)) (.obj [("z", .num 9)])) ∧
    migGetValue ⟨2, scenarioMigs⟩ (some "\x7b\"count\":5\x7d")
      = some (stringify (.obj (insertLast
          [("total", .num 5), ("createdAt", .str "2026-01-30")] "_version" (.num 2)))) := by
  constructor
  · exact claim_C4.2.2.1 (fun v => if v = 2 then some addCreatedAt else none) 1 (by rfl)
      [] [2] (.obj [("z", .num 9)])
  · exact (claim_C4.2.2.2.1 ⟨2, scenarioMigs⟩ "\x7b\"count\":5\x7d"
      (.obj [("count", .num 5)]) [("total", .num 5), ("createdAt", .str "2026-01-30")]
      (by rfl) (by decide) (by rfl)).1

/-- C1 (amended).  The migrating layer's write stamps the configured version
unconditionally on every JSON-object write: the value forwarded to the inner
storage is the parsed object with _version set to the configured version, so
the stored version does not decrease exactly when the configured version is
at least the previously stored version v. -/
theorem claim_C1 :
    ∀ (mo : MigrationOptions) (value : String) (fs : List (String × Json)) (v : Int),
      parseJson value = some (.obj fs) → v ≤ mo.version →
      migSetValue mo value = stringify (.obj (insertLast fs "_version" (.num mo.version))) ∧
      storedVersionOf (.obj (insertLast fs "_version" (.num mo.version))) = mo.version ∧
      v ≤ storedVersionOf (.obj (insertLast fs "_version" (.num mo.version))) := by
  intro mo value fs v h1 h2
  have hver : storedVersionOf (.obj (insertLast fs "_version" (.num mo.version)))
      = mo.version := by
    rw [storedVersionOf, getField, lookup_insertLast_self]
  refine ⟨?_, hver, ?_⟩
  · simp only [migSetValue, h1]
    rfl
  · rw [hver]
    exact h2

/-- C1 counterexample: a layer configured with version 1 writing over a
stored payload at version 5 forwards _version = 1 to the inner storage,
strictly decreasing the stored version. -/
theorem claim_C1_counterexample :
    (createMigratingStorage baseStorage ⟨1, fun _ => none⟩).setItem
        [("k", "\x7b\"_version\":5\x7d")] "k" "\x7b\"a\":1\x7d"
      = .ok [("k", "\x7b\"a\":1,\"_version\":1\x7d")] ∧
    storedVersionOf ((parseJson "\x7b\"_version\":5\x7d").getD .null) = 5 ∧
    storedVersionOf ((parseJson "\x7b\"a\":1,\"_version\":1\x7d").getD .null) = 1 ∧
    (1 : Int) < 5 := by
  refine ⟨by rfl, by rfl, by rfl, by decide⟩

/-- C1 witness: the amended stamping fact at a concrete write. -/
theorem claim_C1_witness :
    migSetValue ⟨3, fun _ => none⟩ "\x7b\"a\":1\x7d"
      = stringify (.obj (insertLast [("a", .num 1)] "_version" (.num 3))) ∧
    storedVersionOf (.obj (insertLast [("a", .num 1)] "_version" (.num 3))) = 3 ∧
    (2 : Int) ≤ storedVersionOf (.obj (insertLast [("a", .num 1)] "_version" (.num 3))) :=
  claim_C1 ⟨3, fun _ => none⟩ "\x7b\"a\":1\x7d" [("a", .num 1)] 2 (by rfl) (by decide)

/-! ## Layer fail-open reads (C3) and persist composition (C9) -/

/-- A concrete primitive bundle: identity cipher (which satisfies the AES
round-trip contract) with fixed random draws. -/
def toyCrypto : CryptoPrimitives where
  pbkdf2 := fun pass salt _ _ => pass ++ ":" ++ salt
  aesEncrypt := fun _ _ data => data
  aesDecrypt := fun _ _ ct => ct
  randomSalt := "SALT"
  randomIV := "IV"

/-- A concrete compression bundle whose decompression always reports
failure (LZString.decompressFromUTF16 returning null). -/
def toyCompression : CompressionPrimitives where
  compressUTF16 := fun s => s
  decompressUTF16 := fun _ => none

/-- C3.  Every transform layer's read is fail-open: an absent inner value
stays absent, and a failing inverse transform (decrypt error, null
decompression, JSON parse failure) returns the stored inner blob unchanged;
the layer getItem functions are total, so no exception reaches the caller. -/
theorem claim_C3 :
    (∀ (cp : CryptoPrimitives) (inner : StateStorage) (secret : String)
       (es : Option EncryptSetting) (st : Store) (n : String),
      (inner.getItem st n = none →
        (createEncryptedStorage cp inner secret es).getItem st n = none) ∧
      (∀ b e, inner.getItem st n = some b → decrypt cp b secret = .error e →
        (createEncryptedStorage cp inner secret es).getItem st n = some b)) ∧
    (∀ (lz : CompressionPrimitives) (inner : StateStorage)
       (cs : Option CompressSetting) (st : Store) (n : String),
      (inner.getItem st n = none →
        (createCompressedStorage lz inner cs).getItem st n = none) ∧
      (∀ b, inner.getItem st n = some b → lz.decompressUTF16 b = none →
        (createCompressedStorage lz inner cs).getItem st n = some b)) ∧
    (∀ (inner : StateStorage) (mo : MigrationOptions) (st : Store) (n : String),
      (inner.getItem st n = none →
        (createMigratingStorage inner mo).getItem st n = none) ∧
      (∀ b, inner.getItem st n = some b → parseJson b = none →
        (createMigratingStorage inner mo).getItem st n = some b)) := by
  refine ⟨?_, ?_, ?_⟩
  · intro cp inner secret es st n
    constructor
    · intro h
      simp [createEncryptedStorage, h]
    · intro b e h hd
      simp [createEncryptedStorage, h, hd]
  · intro lz inner cs st n
    constructor
    · intro h
      simp [createCompressedStorage, h]
    · intro b h hd
      simp [createCompressedStorage, decompress, h, hd]
  · intro inner mo st n
    constructor
    · intro h
      simp [createMigratingStorage, migGetValue, h]
    · intro b h hp
      simp [createMigratingStorage, migGetValue, h, hp]

/-- C3 witness: each fail-open equation at a concrete store and blob. -/
theorem claim_C3_witness :
    (createEncryptedStorage toyCrypto baseStorage "k" none).getItem [("n", "blob")] "n"
        = some "blob" ∧
    (createCompressedStorage toyCompression baseStorage none).getItem [("n", "blob")] "n"
        = some "blob" ∧
    (createMigratingStorage baseStorage ⟨1, fun _ => none⟩).getItem [("n", "not json")] "n"
        = some "not json" ∧
    (createEncryptedStorage toyCrypto baseStorage "k" none).getItem [] "n" = none := by
  refine ⟨(claim_C3.1 toyCrypto baseStorage "k" none [("n", "blob")] "n").2 "blob"
            "Failed to decrypt data. Check your secret key." (by rfl) (by rfl),
          (claim_C3.2.1 toyCompression baseStorage none [("n", "blob")] "n").2 "blob"
            (by rfl) (by rfl),
          (claim_C3.2.2 baseStorage ⟨1, fun _ => none⟩ [("n", "not json")] "n").2 "not json"
            (by rfl) (by rfl),
          (claim_C3.1 toyCrypto baseStorage "k" none [] "n").1 (by rfl)⟩

/-- C9.  createPersistPlus with encrypt: true builds the encryption layer
with the empty string as secret, so every setItem on the composed storage
throws the missing-secret error, for any key and value and any other
options. -/
theorem claim_C9 :
    ∀ (cp : CryptoPrimitives) (lz : CompressionPrimitives) (o : PersistPlusOptions)
      (st : Store) (n v : String),
      o.encrypt = some (.flag true) →
      (createPersistPlus cp lz o).setItem st n v = .error "Encryption secret is required" := by
  intro cp lz o st n v h
  simp only [createPersistPlus, h, createEncryptedStorage, encrypt, if_pos rfl]
  rfl

/-- C9 witness: the composed storage built from encrypt: true rejects a
concrete write. -/
theorem claim_C9_witness :
    (createPersistPlus toyCrypto toyCompression
        { encrypt := some (.flag true) }).setItem [] "k" "v"
      = .error "Encryption secret is required" :=
  claim_C9 toyCrypto toyCompression { encrypt := some (.flag true) } [] "k" "v" rfl

/-! ## Encryption error conditions (C8) -/

/-- C8.  encrypt fails exactly when the secret is empty (it succeeds on
every non-empty secret); decrypt fails whenever the secret is empty,
whenever the parsed blob's algorithm field is not the string AES-GCM, and
whenever the decrypted result is the empty string. -/
theorem claim_C8 :
    (∀ (cp : CryptoPrimitives) (data : String) (opts : EncryptionOptions),
      encrypt cp data "" opts = .error "Encryption secret is required") ∧
    (∀ (cp : CryptoPrimitives) (data secret : String) (opts : EncryptionOptions),
      secret ≠ "" → ∃ b, encrypt cp data secret opts = .ok b) ∧
    (∀ (cp : CryptoPrimitives) (blob : String),
      decrypt cp blob "" = .error "Encryption secret is required") ∧
    (∀ (cp : CryptoPrimitives) (blob secret : String) (parsed : Json),
      secret ≠ "" → parseJson blob = some parsed →
      getField parsed "algorithm" ≠ some (.str "AES-GCM") →
      decrypt cp blob secret = .error "Failed to decrypt data. Check your secret key.") ∧
    (∀ (cp : CryptoPrimitives) (blob secret salt iv ct : String) (parsed : Json),
      secret ≠ "" → parseJson blob = some parsed →
      getField parsed "algorithm" = some (.str "AES-GCM") →
      getField parsed "salt" = some (.str salt) →
      getField parsed "iv" = some (.str iv) →
      getField parsed "ciphertext" = some (.str ct) →
      cp.aesDecrypt (cp.pbkdf2 secret salt 10000 256) iv ct = "" →
      decrypt cp blob secret = .error "Failed to decrypt data. Check your secret key.") := by
  refine ⟨?_, ?_, ?_, ?_, ?_⟩
  · intro cp data opts
    rw [encrypt, if_pos rfl]
  · intro cp data secret opts h
    rw [encrypt, if_neg h]
    exact ⟨_, rfl⟩
  · intro cp blob
    rw [decrypt, if_pos rfl]
  · intro cp blob secret parsed h hp halg
    rw [decrypt, if_neg h]
    simp only [hp]
    split
    · rename_i salt iv ct heqa heqs heqi heqc
      exact absurd heqa halg
    · rfl
  · intro cp blob secret salt iv ct parsed h hp halg hsalt hiv hct hdec
    rw [decrypt, if_neg h]
    simp only [hp, halg, hsalt, hiv, hct]
    rw [if_pos hdec]

/-- C8 witness: each error condition at concrete inputs, plus a concrete
successful encrypt with a non-empty secret. -/
theorem claim_C8_witness :
    encrypt toyCrypto "d" "" {} = .error "Encryption secret is required" ∧
    (∃ b, encrypt toyCrypto "d" "key" {} = .ok b) ∧
    decrypt toyCrypto "x" "" = .error "Encryption secret is required" ∧
    decrypt toyCrypto "\x7b\"algorithm\":\"XSalsa20\"\x7d" "key"
      = .error "Failed to decrypt data. Check your secret key." ∧
    decrypt toyCrypto
        "\x7b\"salt\":\"s\",\"iv\":\"i\",\"ciphertext\":\"\",\"algorithm\":\"AES-GCM\"\x7d" "key"
      = .error "Failed to decrypt data. Check your secret key." := by
  refine ⟨claim_C8.1 toyCrypto "d" {},
          claim_C8.2.1 toyCrypto "d" "key" {} (by decide),
          claim_C8.2.2.1 toyCrypto "x",
          claim_C8.2.2.2.1 toyCrypto _ "key" (.obj [("algorithm", .str "XSalsa20")])
            (by decide) (by rfl) ?_,
          claim_C8.2.2.2.2 toyCrypto _ "key" "s" "i" ""
            (.obj [("salt", .str "s"), ("iv", .str "i"), ("ciphertext", .str ""),
              ("algorithm", .str "AES-GCM")])
            (by decide) (by rfl) (by rfl) (by rfl) (by rfl) (by rfl) (by rfl)⟩
  intro hco
  rw [show getField (.obj [("algorithm", Json.str "XSalsa20")]) "algorithm"
      = some (.str "XSalsa20") from rfl] at hco
  simp at hco

/-! ## Serializer/parser round trip on the cipher envelope (for C2) -/

theorem hexVal_hexDigitChar : ∀ n : Nat, n < 16 → hexVal (hexDigitChar n) = some n := by
  decide

theorem psb_quote (rest : List Char) :
    parseStringBody (Char.ofNat 34 :: rest) = some ([], rest) := by
  unfold parseStringBody
  rw [if_pos rfl]

theorem psb_esc_named {e : Char} {decoded : Char}
    (h : (e = Char.ofNat 34 ∧ decoded = Char.ofNat 34) ∨
         (e = Char.ofNat 92 ∧ decoded = Char.ofNat 92) ∨
         (e = '/' ∧ decoded = '/') ∨
         (e = 'b' ∧ decoded = Char.ofNat 8) ∨
         (e = 'f' ∧ decoded = Char.ofNat 12) ∨
         (e = 'n' ∧ decoded = Char.ofNat 10) ∨
         (e = 'r' ∧ decoded = Char.ofNat 13) ∨
         (e = 't' ∧ decoded = Char.ofNat 9)) (rest : List Char) :
    parseStringBody (Char.ofNat 92 :: e :: rest) = consChar decoded (parseStringBody rest) := by
  conv_lhs => unfold parseStringBody
  rw [if_neg (by decide : ¬ Char.ofNat 92 = Char.ofNat 34), if_pos rfl]
  rcases h with ⟨he, hd⟩ | ⟨he, hd⟩ | ⟨he, hd⟩ | ⟨he, hd⟩ | ⟨he, hd⟩ | ⟨he, hd⟩ |
    ⟨he, hd⟩ | ⟨he, hd⟩ <;> subst he <;> subst hd <;> simp only [] <;>
    rw [if_pos trivial] <;> rfl

theorem psb_esc_u {a b c2 d : Char} {n : Nat} (hh : hex4 a b c2 d = some n)
    (hn : n < 55296) (rest : List Char) :
    parseStringBody (Char.ofNat 92 :: 'u' :: a :: b :: c2 :: d :: rest)
      = consChar (Char.ofNat n) (parseStringBody rest) := by
  conv_lhs => unfold parseStringBody
  rw [if_neg (by decide : ¬ Char.ofNat 92 = Char.ofNat 34), if_pos rfl]
  simp only []
  rw [if_neg (by decide : ¬ ('u' : Char) = Char.ofNat 34),
    if_neg (by decide : ¬ ('u' : Char) = Char.ofNat 92),
    if_neg (by decide : ¬ ('u' : Char) = '/'), if_neg (by decide : ¬ ('u' : Char) = 'b'),
    if_neg (by decide : ¬ ('u' : Char) = 'f'), if_neg (by decide : ¬ ('u' : Char) = 'n'),
    if_neg (by decide : ¬ ('u' : Char) = 'r'), if_neg (by decide : ¬ ('u' : Char) = 't'),
    if_pos trivial]
  rw [hh]
  simp only []
  rw [if_pos hn]

theorem psb_plain {c : Char} (h1 : ¬ c = Char.ofNat 34) (h2 : ¬ c = Char.ofNat 92)
    (h3 : 32 ≤ c.toNat) (rest : List Char) :
    parseStringBody (c :: rest) = consChar c (parseStringBody rest) := by
  conv_lhs => unfold parseStringBody
  rw [if_neg h1, if_neg h2, if_pos h3]

theorem escapeList_cons (c : Char) (cs : List Char) :
    escapeList (c :: cs) = escapeChar c ++ escapeList cs := rfl

/-- The parser inverts the serializer's string escaping: reading an escaped
body up to a closing quote recovers the original characters. -/
theorem parseStringBody_escape : ∀ (cs rest : List Char),
    parseStringBody (escapeList cs ++ (Char.ofNat 34 :: rest)) = some (cs, rest) := by
  intro cs
  induction cs with
  | nil =>
    intro rest
    rw [show escapeList [] = [] from rfl, List.nil_append, psb_quote]
  | cons c cs ih =>
    intro rest
    rw [escapeList_cons, List.append_assoc]
    by_cases h1 : c = Char.ofNat 34
    · subst h1
      rw [show escapeChar (Char.ofNat 34) = [Char.ofNat 92, Char.ofNat 34] from by decide]
      simp only [List.cons_append, List.nil_append]
      rw [psb_esc_named (Or.inl ⟨rfl, rfl⟩), ih]
      rfl
    · by_cases h2 : c = Char.ofNat 92
      · subst h2
        rw [show escapeChar (Char.ofNat 92) = [Char.ofNat 92, Char.ofNat 92] from by decide]
        simp only [List.cons_append, List.nil_append]
        rw [psb_esc_named (Or.inr (Or.inl ⟨rfl, rfl⟩)), ih]
        rfl
      · by_cases h3 : c = Char.ofNat 8
        · subst h3
          rw [show escapeChar (Char.ofNat 8) = [Char.ofNat 92, 'b'] from by decide]
          simp only [List.cons_append, List.nil_append]
          rw [psb_esc_named (Or.inr (Or.inr (Or.inr (Or.inl ⟨rfl, rfl⟩)))), ih]
          rfl
        · by_cases h4 : c = Char.ofNat 9
          · subst h4
            rw [show escapeChar (Char.ofNat 9) = [Char.ofNat 92, 't'] from by decide]
            simp only [List.cons_append, List.nil_append]
            rw [psb_esc_named (Or.inr (Or.inr (Or.inr (Or.inr (Or.inr (Or.inr
              (Or.inr ⟨rfl, rfl⟩))))))), ih]
            rfl
          · by_cases h5 : c = Char.ofNat 10
            · subst h5
              rw [show escapeChar (Char.ofNat 10) = [Char.ofNat 92, 'n'] from by decide]
              simp only [List.cons_append, List.nil_append]
              rw [psb_esc_named (Or.inr (Or.inr (Or.inr (Or.inr (Or.inr
                (Or.inl ⟨rfl, rfl⟩)))))), ih]
              rfl
            · by_cases h6 : c = Char.ofNat 12
              · subst h6
                rw [show escapeChar (Char.ofNat 12) = [Char.ofNat 92, 'f'] from by decide]
                simp only [List.cons_append, List.nil_append]
                rw [psb_esc_named (Or.inr (Or.inr (Or.inr (Or.inr
                  (Or.inl ⟨rfl, rfl⟩))))), ih]
                rfl
              · by_cases h7 : c = Char.ofNat 13
                · subst h7
                  rw [show escapeChar (Char.ofNat 13) = [Char.ofNat 92, 'r'] from by decide]
                  simp only [List.cons_append, List.nil_append]
                  rw [psb_esc_named (Or.inr (Or.inr (Or.inr (Or.inr (Or.inr (Or.inr
                    (Or.inl ⟨rfl, rfl⟩))))))), ih]
                  rfl
                · by_cases h8 : c.toNat < 32
                  · have he : escapeChar c
                        = [Char.ofNat 92, 'u', '0', '0',
                           hexDigitChar (c.toNat / 16), hexDigitChar (c.toNat % 16)] := by
                      unfold escapeChar
                      rw [if_neg h1, if_neg h2, if_neg h3, if_neg h4, if_neg h5, if_neg h6,
                        if_neg h7, if_pos h8]
                    rw [he]
                    simp only [List.cons_append, List.nil_append]
                    have hd1 : hexVal (hexDigitChar (c.toNat / 16)) = some (c.toNat / 16) :=
                      hexVal_hexDigitChar _ (by omega)
                    have hd2 : hexVal (hexDigitChar (c.toNat % 16)) = some (c.toNat % 16) :=
                      hexVal_hexDigitChar _ (by omega)
                    have hh : hex4 '0' '0' (hexDigitChar (c.toNat / 16))
                        (hexDigitChar (c.toNat % 16)) = some c.toNat := by
                      rw [hex4.eq_def, show hexVal '0' = some 0 from by decide, hd1, hd2]
                      simp only []
                      congr 1
                      omega
                    rw [psb_esc_u hh (by omega), ih, Char.ofNat_toNat]
                    rfl
                  · have he : escapeChar c = [c] := by
                      unfold escapeChar
                      rw [if_neg h1, if_neg h2, if_neg h3, if_neg h4, if_neg h5, if_neg h6,
                        if_neg h7, if_neg h8]
                    rw [he]
                    simp only [List.cons_append, List.nil_append]
                    rw [psb_plain h1 h2 (by omega), ih]
                    rfl

/-! ## Driving the parser over a serialized flat string-valued object -/

theorem data_append (s t : String) : (s ++ t).data = s.data ++ t.data := rfl

theorem data_mk (cs : List Char) : (String.mk cs).data = cs := rfl

theorem data_colon : (":" : String).data = [':'] := rfl

theorem data_comma : ("," : String).data = [','] := rfl

theorem data_lbrace : ("\x7b" : String).data = [Char.ofNat 123] := by decide

theorem data_rbrace : ("\x7d" : String).data = [Char.ofNat 125] := by decide

theorem skipWs_cons {c : Char} (h : ¬ (c = ' ' ∨ c = Char.ofNat 9 ∨ c = Char.ofNat 10 ∨
    c = Char.ofNat 13)) (X : List Char) : skipWs (c :: X) = c :: X := by
  unfold skipWs
  rw [if_neg h]

/-- The value parser on a string literal head. -/
theorem pv_str (fuel : Nat) (X : List Char) :
    parseVal (Nat.succ fuel) (Char.ofNat 34 :: X)
      = match parseStringBody X with
        | some (cs, rest2) => some (.str (String.mk cs), rest2)
        | none => none := by
  conv_lhs => unfold parseVal
  rw [skipWs_cons (by decide)]
  simp only []

/-- Serialized form of a single trailing string-valued member. -/
theorem sf_single_data (k v : String) :
    (stringifyFields [(k, .str v)]).data
      = Char.ofNat 34 :: (escapeList k.data ++ (Char.ofNat 34 :: ':' ::
        (Char.ofNat 34 :: (escapeList v.data ++ [Char.ofNat 34])))) := by
  simp only [stringifyFields, stringify, quoteString, data_append, data_mk, data_colon,
    List.append_assoc, List.cons_append, List.nil_append, List.singleton_append]

/-- Serialized form of a leading string-valued member followed by more
members. -/
theorem sf_cons_data (k v : String) (e : String × Json) (fs : List (String × Json)) :
    (stringifyFields ((k, .str v) :: e :: fs)).data
      = Char.ofNat 34 :: (escapeList k.data ++ (Char.ofNat 34 :: ':' ::
        (Char.ofNat 34 :: (escapeList v.data ++ (Char.ofNat 34 :: ',' ::
          (stringifyFields (e :: fs)).data))))) := by
  conv_lhs => rw [stringifyFields]
  simp only [stringify, quoteString, data_append, data_mk, data_colon, data_comma,
    List.append_assoc, List.cons_append, List.nil_append, List.singleton_append]

/-- The member loop inverts the serializer on a non-empty flat object whose
values are all strings. -/
theorem pm_strFields : ∀ (fs : List (String × String)) (k v : String) (f : Nat)
    (rest : List Char),
    parseMembers (f + fs.length + 2)
        ((stringifyFields (((k, v) :: fs).map (fun e => (e.1, Json.str e.2)))).data
          ++ (Char.ofNat 125 :: rest))
      = some (((k, v) :: fs).map (fun e => (e.1, Json.str e.2)), rest) := by
  intro fs
  induction fs with
  | nil =>
    intro k v f rest
    rw [show ([(k, v)].map (fun e => (e.1, Json.str e.2))) = [(k, .str v)] from rfl,
      sf_single_data]
    simp only [List.length_nil]
    rw [show f + 0 + 2 = Nat.succ (f + 1) from rfl]
    conv_lhs => unfold parseMembers
    rw [List.cons_append, skipWs_cons (by decide)]
    simp only [List.append_assoc, List.cons_append, List.singleton_append]
    rw [parseStringBody_escape]
    simp only []
    rw [skipWs_cons (by decide)]
    simp only []
    rw [show f + 1 = Nat.succ f from rfl, pv_str, parseStringBody_escape]
    simp only [List.nil_append]
    rw [skipWs_cons (by decide)]
    rfl
  | cons e2 fs' ih =>
    intro k v f rest
    obtain ⟨k2, v2⟩ := e2
    rw [show (((k, v) :: (k2, v2) :: fs').map (fun e => (e.1, Json.str e.2)))
        = (k, .str v) :: ((k2, v2) :: fs').map (fun e => (e.1, Json.str e.2)) from rfl]
    rw [show (((k2, v2) :: fs').map (fun e => (e.1, Json.str e.2)))
        = (k2, .str v2) :: fs'.map (fun e => (e.1, Json.str e.2)) from rfl]
    rw [sf_cons_data]
    simp only [List.length_cons]
    rw [show f + (fs'.length + 1) + 2 = Nat.succ (f + fs'.length + 2) from by omega]
    conv_lhs => unfold parseMembers
    rw [List.cons_append, skipWs_cons (by decide)]
    simp only [List.append_assoc, List.cons_append, List.singleton_append]
    rw [parseStringBody_escape]
    simp only []
    rw [skipWs_cons (by decide)]
    simp only []
    rw [show f + fs'.length + 2 = Nat.succ (f + fs'.length + 1) from rfl, pv_str,
      parseStringBody_escape]
    simp only []
    rw [skipWs_cons (by decide)]
    simp only []
    rw [show Nat.succ (f + fs'.length + 1) = f + fs'.length + 2 from rfl]
    have := ih k2 v2 f rest
    rw [show (((k2, v2) :: fs').map (fun e => (e.1, Json.str e.2)))
        = (k2, .str v2) :: fs'.map (fun e => (e.1, Json.str e.2)) from rfl] at this
    rw [this]

/-- The value parser inverts the serializer on the cipher envelope, with any
fuel slack. -/
theorem parseVal_envelope (A B C : String) (f : Nat) :
    parseVal (f + 6)
        (stringify (.obj [("salt", .str A), ("iv", .str B), ("ciphertext", .str C),
          ("algorithm", .str "AES-GCM")])).data
      = some (.obj [("salt", .str A), ("iv", .str B), ("ciphertext", .str C),
          ("algorithm", .str "AES-GCM")], []) := by
  have hdata : (stringify (.obj [("salt", .str A), ("iv", .str B), ("ciphertext", .str C),
      ("algorithm", .str "AES-GCM")])).data
      = Char.ofNat 123 :: ((stringifyFields [("salt", .str A), ("iv", .str B),
          ("ciphertext", .str C), ("algorithm", .str "AES-GCM")]).data
        ++ (Char.ofNat 125 :: [])) := by
    conv_lhs => rw [stringify]
    simp only [data_append, data_lbrace, data_rbrace, List.append_assoc, List.cons_append,
      List.nil_append, List.singleton_append]
  have hpm := pm_strFields [("iv", B), ("ciphertext", C), ("algorithm", "AES-GCM")]
    "salt" A f []
  simp only [List.map, List.length_cons, List.length_nil] at hpm
  rw [show f + (0 + 1 + 1 + 1) + 2 = f + 5 from by omega] at hpm
  rw [hdata, show f + 6 = Nat.succ (f + 5) from rfl]
  conv_lhs => unfold parseVal
  rw [skipWs_cons (by decide)]
  simp only []
  rw [sf_cons_data, List.cons_append, skipWs_cons (by decide)]
  rw [sf_cons_data, List.cons_append] at hpm
  simp only [List.append_assoc, List.cons_append] at hpm ⊢
  split
  · rename_i rest2 heq
    simp at heq
  · rw [hpm]
    rfl

/-- JSON.parse inverts JSON.stringify on the cipher envelope. -/
theorem parseJson_envelope (A B C : String) :
    parseJson (stringify (.obj [("salt", .str A), ("iv", .str B), ("ciphertext", .str C),
        ("algorithm", .str "AES-GCM")]))
      = some (.obj [("salt", .str A), ("iv", .str B), ("ciphertext", .str C),
        ("algorithm", .str "AES-GCM")]) := by
  conv_lhs => unfold parseJson
  rw [parseVal_envelope]
  show (if skipWs ([] : List Char) = ([] : List Char) then
      some (Json.obj [("salt", .str A), ("iv", .str B), ("ciphertext", .str C),
        ("algorithm", .str "AES-GCM")]) else none)
    = some (.obj [("salt", .str A), ("iv", .str B), ("ciphertext", .str C),
        ("algorithm", .str "AES-GCM")])
  rw [if_pos (show skipWs ([] : List Char) = [] from rfl)]

/-! ## Encrypt/decrypt round trip (C2) -/

/-- C2 (amended).  For every plaintext s other than the empty string and
every non-empty secret k, decrypting the encrypted blob with the same secret
returns s, given that the abstracted AES primitive pair satisfies the cipher
round trip the sources rely on.  (The empty plaintext is excluded: decrypt
deliberately reports an empty decrypted result as a failure.) -/
theorem claim_C2 (cp : CryptoPrimitives) (s k : String)
    (hrt : ∀ key iv d, cp.aesDecrypt key iv (cp.aesEncrypt key iv d) = d)
    (hs : s ≠ "") (hk : k ≠ "") :
    (encrypt cp s k {}).bind (fun b => decrypt cp b k) = .ok s := by
  have henc : encrypt cp s k {}
      = .ok (stringify (.obj [("salt", .str cp.randomSalt), ("iv", .str cp.randomIV),
          ("ciphertext", .str (cp.aesEncrypt (cp.pbkdf2 k cp.randomSalt 10000 256)
            cp.randomIV s)),
          ("algorithm", .str "AES-GCM")])) := by
    rw [encrypt, if_neg hk]
    simp
  rw [henc]
  show decrypt cp (stringify (.obj [("salt", .str cp.randomSalt), ("iv", .str cp.randomIV),
      ("ciphertext", .str (cp.aesEncrypt (cp.pbkdf2 k cp.randomSalt 10000 256)
        cp.randomIV s)),
      ("algorithm", .str "AES-GCM")])) k = .ok s
  rw [decrypt, if_neg hk, parseJson_envelope]
  simp only [getField, List.lookup]
  simp [hrt, hs]

/-- C2 counterexample: with a cipher satisfying the round-trip contract, the
round trip on the empty plaintext raises the decrypt error instead of
returning the empty string, because decrypt treats an empty decrypted result
as a failure. -/
theorem claim_C2_counterexample :
    (encrypt toyCrypto "" "key" {}).bind (fun b => decrypt toyCrypto b "key")
      = .error "Failed to decrypt data. Check your secret key." := by
  rfl

/-- C2 witness: the round trip at a concrete non-empty plaintext and secret. -/
theorem claim_C2_witness :
    (encrypt toyCrypto "hello" "key" {}).bind (fun b => decrypt toyCrypto b "key")
      = .ok "hello" :=
  claim_C2 toyCrypto "hello" "key" (fun _ _ _ => rfl) (by decide) (by decide)

end ZPP

